import Mathlib

/-!
Shallow embedding of `src/scripts/data_cleaning.py`, a pandas batch pipeline
cleaning a table of loan records.  A pandas cell is modelled as an `Option`
value (`none` is NaN/NaT); a DataFrame is a `List LoanRecord`; floats are
modelled as rationals.  Python string primitives (`str.lower`, `str.title`,
`str.strip`) are modelled character-by-character for the ASCII range, which
covers every categorical value the script manipulates.
-/

namespace LoanClean

/-- ASCII model of Python `str.lower` on one character: map `A`–`Z` to
`a`–`z`, leave everything else unchanged. -/
def lowerChar (c : Char) : Char :=
  if 65 ≤ c.toNat ∧ c.toNat ≤ 90 then Char.ofNat (c.toNat + 32) else c

/-- ASCII upper-casing of one character: map `a`–`z` to `A`–`Z`. -/
def upperChar (c : Char) : Char :=
  if 97 ≤ c.toNat ∧ c.toNat ≤ 122 then Char.ofNat (c.toNat - 32) else c

/-- ASCII cased (alphabetic) character, the word-constituent test used by
Python `str.title`. -/
def isAlphaA (c : Char) : Bool :=
  decide ((65 ≤ c.toNat ∧ c.toNat ≤ 90) ∨ (97 ≤ c.toNat ∧ c.toNat ≤ 122))

/-- Python `str.lower` (ASCII model). -/
def pyLower (s : String) : String := ⟨s.data.map lowerChar⟩

/-- Python `str.title` worker: the flag records whether the previous
character was alphabetic; an alphabetic character starting a word is
upper-cased, a later alphabetic character is lower-cased. -/
def titleAux : Bool → List Char → List Char
  | _, [] => []
  | prev, c :: cs =>
    (if isAlphaA c then (if prev then lowerChar c else upperChar c) else c)
      :: titleAux (isAlphaA c) cs

/-- Python `str.title` (ASCII model): uppercase the first letter of each
maximal alphabetic run, lowercase the rest. -/
def pyTitle (s : String) : String := ⟨titleAux false s.data⟩

/-- Python whitespace for `str.strip`. -/
def isSpaceA (c : Char) : Bool :=
  c = ' ' ∨ c = '\t' ∨ c = '\n' ∨ c = '\r' ∨ c = '\x0b' ∨ c = '\x0c'

/-- Python `str.strip`: drop leading and trailing whitespace. -/
def pyStrip (s : String) : String :=
  ⟨(((s.data.dropWhile isSpaceA).reverse).dropWhile isSpaceA).reverse⟩

theorem toNat_ofNat_valid (n : ℕ) (h : n.isValidChar) : (Char.ofNat n).toNat = n := by
  simp [Char.ofNat, h, Char.toNat, Char.ofNatAux]
  rfl

theorem lowerChar_toNat_of_upper (c : Char) (h : 65 ≤ c.toNat ∧ c.toNat ≤ 90) :
    (lowerChar c).toNat = c.toNat + 32 := by
  have hv : (c.toNat + 32).isValidChar := Or.inl (by omega)
  simp [lowerChar, h, toNat_ofNat_valid _ hv]

theorem isAlphaA_lowerChar (c : Char) : isAlphaA (lowerChar c) = isAlphaA c := by
  by_cases h : 65 ≤ c.toNat ∧ c.toNat ≤ 90
  · have ht := lowerChar_toNat_of_upper c h
    simp only [isAlphaA, ht]
    exact decide_eq_decide.mpr (by omega)
  · simp [lowerChar, h]

theorem lowerChar_lowerChar (c : Char) : lowerChar (lowerChar c) = lowerChar c := by
  by_cases h : 65 ≤ c.toNat ∧ c.toNat ≤ 90
  · have ht := lowerChar_toNat_of_upper c h
    have hn : ¬ (65 ≤ (lowerChar c).toNat ∧ (lowerChar c).toNat ≤ 90) := by omega
    conv_lhs => rw [lowerChar]
    rw [if_neg hn]
  · simp [lowerChar, h]

theorem upperChar_lowerChar (c : Char) : upperChar (lowerChar c) = upperChar c := by
  by_cases h : 65 ≤ c.toNat ∧ c.toNat ≤ 90
  · have ht := lowerChar_toNat_of_upper c h
    have h2 : 97 ≤ (lowerChar c).toNat ∧ (lowerChar c).toNat ≤ 122 := by omega
    have h3 : ¬ (97 ≤ c.toNat ∧ c.toNat ≤ 122) := by omega
    rw [upperChar, upperChar, if_pos h2, if_neg h3]
    have : (lowerChar c).toNat - 32 = c.toNat := by omega
    rw [this, Char.ofNat_toNat]
  · simp [lowerChar, h]

theorem lowerChar_of_not_alpha (c : Char) (h : isAlphaA c = false) : lowerChar c = c := by
  simp only [isAlphaA, decide_eq_false_iff_not] at h
  have : ¬ (65 ≤ c.toNat ∧ c.toNat ≤ 90) := fun hc => h (Or.inl hc)
  simp [lowerChar, this]

theorem titleAux_map_lowerChar (b : Bool) (l : List Char) :
    titleAux b (l.map lowerChar) = titleAux b l := by
  induction l generalizing b with
  | nil => rfl
  | cons c cs ih =>
    simp only [List.map_cons, titleAux, isAlphaA_lowerChar]
    by_cases h : isAlphaA c
    · by_cases hb : b
      · simp [h, hb, lowerChar_lowerChar, ih]
      · simp [h, hb, upperChar_lowerChar, ih]
    · simp only [Bool.not_eq_true] at h
      simp [h, lowerChar_of_not_alpha c h, ih]

/-- Python `title` of a lower-cased string equals `title` of the original
string (ASCII): case-folding each character to lower first does not change
the title-case result. -/
theorem pyTitle_pyLower (s : String) : pyTitle (pyLower s) = pyTitle s := by
  simp [pyTitle, pyLower, titleAux_map_lowerChar]

theorem head?_dropWhile_spaces (l : List Char) :
    ∀ c, (l.dropWhile isSpaceA).head? = some c → isSpaceA c = false := by
  induction l with
  | nil => intro c h; simp [List.dropWhile] at h
  | cons x xs ih =>
    intro c h
    by_cases hx : isSpaceA x
    · rw [List.dropWhile_cons_of_pos hx] at h; exact ih c h
    · rw [List.dropWhile_cons_of_neg hx] at h
      simp only [List.head?_cons, Option.some.injEq] at h
      subst h; simpa using hx

theorem dropWhile_eq_self_of_head (l : List Char)
    (h : ∀ c, l.head? = some c → isSpaceA c = false) :
    l.dropWhile isSpaceA = l := by
  cases l with
  | nil => rfl
  | cons x xs =>
    have := h x (by simp)
    rw [List.dropWhile_cons_of_neg (by simp [this])]

theorem getLast?_dropWhile_spaces (l : List Char) (h : l.dropWhile isSpaceA ≠ []) :
    (l.dropWhile isSpaceA).getLast? = l.getLast? := by
  induction l with
  | nil => simp at h
  | cons x xs ih =>
    by_cases hx : isSpaceA x
    · rw [List.dropWhile_cons_of_pos hx] at h ⊢
      rw [ih h]
      have hxs : xs ≠ [] := by
        intro he; rw [he] at h; simp [List.dropWhile] at h
      cases xs with
      | nil => exact absurd rfl hxs
      | cons y ys => simp [List.getLast?_cons_cons]
    · rw [List.dropWhile_cons_of_neg hx]

/-- `pyStrip` is idempotent. -/
theorem pyStrip_pyStrip (s : String) : pyStrip (pyStrip s) = pyStrip s := by
  rcases s with ⟨l⟩
  simp only [pyStrip]
  set A := l.dropWhile isSpaceA with hA
  set B := A.reverse.dropWhile isSpaceA with hB
  have hBh : ∀ c, B.reverse.head? = some c → isSpaceA c = false := by
    intro c hc
    rw [List.head?_reverse] at hc
    by_cases hBe : B = []
    · rw [hBe] at hc; simp at hc
    · rw [hB, getLast?_dropWhile_spaces _ (hB ▸ hBe), List.getLast?_reverse] at hc
      exact head?_dropWhile_spaces l c (hA ▸ hc)
  rw [dropWhile_eq_self_of_head _ hBh]
  have hBt : ∀ c, B.reverse.reverse.head? = some c → isSpaceA c = false := by
    intro c hc
    rw [List.reverse_reverse] at hc
    exact head?_dropWhile_spaces A.reverse c (hB ▸ hc)
  rw [dropWhile_eq_self_of_head _ hBt, List.reverse_reverse]

/-- A date cell as a pandas object column holds it: either a raw textual
representation (as loaded from CSV) or a parsed canonical date
(year, month, day), the result of `pd.to_datetime`.  NaN/NaT is `none` at
the `Option` layer. -/
inductive DateVal where
  | raw (s : String)
  | date (y m d : ℕ)
deriving DecidableEq, Repr

/-- Model of the `pd.to_datetime` string parser restricted to ISO
`YYYY-MM-DD`: three dash-separated all-digit groups, four-digit year,
month 1–12, day 1–31.  Any other shape fails to parse.  This is a partial
model: the real parser's dateutil fallback also accepts other textual
layouts (e.g. month names), so every concrete date string appearing in
this file is chosen to behave identically under both parsers — it is
either an in-range ISO date (parsed by both) or a dash-separated
all-digit string with an out-of-range month field (rejected by format
inference and by the dateutil fallback alike, hence NaT under
`errors='coerce'`). -/
def digitsToNat (l : List Char) : ℕ :=
  l.foldl (fun n c => 10 * n + (c.toNat - 48)) 0

def digitsVal (l : List Char) : Option ℕ :=
  if l ≠ [] ∧ l.all (·.isDigit) then some (digitsToNat l) else none

def splitDash : List Char → List (List Char)
  | [] => [[]]
  | c :: cs =>
    match splitDash cs with
    | [] => [[c]]
    | g :: gs => if c = '-' then [] :: g :: gs else (c :: g) :: gs

def parseDateString (s : String) : Option (ℕ × ℕ × ℕ) :=
  match splitDash s.data with
  | [ys, ms, ds] =>
    match digitsVal ys, digitsVal ms, digitsVal ds with
    | some y, some m, some d =>
      if ys.length = 4 ∧ 1 ≤ m ∧ m ≤ 12 ∧ 1 ≤ d ∧ d ≤ 31 then some (y, m, d) else none
    | _, _, _ => none
  | _ => none

/-- `pd.to_datetime(col, errors='coerce')` on one cell: NaN/NaT stays
absent, an already-parsed date passes through, a raw string is parsed and
coerced to absent (NaT) on failure — never an exception. -/
def toDatetime : Option DateVal → Option DateVal
  | none => none
  | some (DateVal.date y m d) => some (DateVal.date y m d)
  | some (DateVal.raw s) =>
    match parseDateString s with
    | some (y, m, d) => some (DateVal.date y m d)
    | none => none

/-- One row of the loan table.  Every raw cell is an `Option` (pandas NaN =
`none`); numeric cells are rationals.  The four derived columns do not
exist before `add_calculated_fields` runs, which the loader encodes as
`none`. -/
structure LoanRecord where
  loan_id : Option String
  customer_id : Option String
  loan_amount : Option ℚ
  annual_income : Option ℚ
  monthly_payment : Option ℚ
  interest_rate : Option ℚ
  credit_score : Option ℚ
  employment_length : Option ℚ
  loan_term : Option ℚ
  loan_status : Option String
  purpose : Option String
  application_date : Option DateVal
  approval_date : Option DateVal
  disbursement_date : Option DateVal
  loan_to_income : Option ℚ := none
  total_interest : Option ℚ := none
  loan_category : Option String := none
  credit_band : Option String := none
deriving DecidableEq, Repr

/-- The subset key of `df.drop_duplicates(subset=['customer_id',
'loan_amount', 'application_date'])`.  Equality on `Option` makes an
absent component compare equal to an absent component, as pandas
`drop_duplicates` treats NaN. -/
def dedupKey (r : LoanRecord) : Option String × Option ℚ × Option DateVal :=
  (r.customer_id, r.loan_amount, r.application_date)

/-- `remove_duplicates`: `df.drop_duplicates` on the three-column subset
with the default `keep='first'` — keep each row whose key has not appeared
earlier, in original order. -/
def removeDupSeen (seen : List (Option String × Option ℚ × Option DateVal)) :
    List LoanRecord → List LoanRecord
  | [] => []
  | r :: rs =>
    if dedupKey r ∈ seen then removeDupSeen seen rs
    else r :: removeDupSeen (dedupKey r :: seen) rs

def remove_duplicates (t : List LoanRecord) : List LoanRecord :=
  removeDupSeen [] t

/-- `df.dropna(subset=critical_fields)` row predicate: all four critical
cells present. -/
def criticalPresent (r : LoanRecord) : Bool :=
  r.loan_id.isSome && r.customer_id.isSome && r.loan_amount.isSome && r.loan_status.isSome

/-- The non-absent `credit_score` values of a table, the population of
`df['credit_score'].median()` (pandas skips NaN). -/
def creditScores (t : List LoanRecord) : List ℚ :=
  t.filterMap (fun r => r.credit_score)

def insertQ (q : ℚ) : List ℚ → List ℚ
  | [] => [q]
  | x :: xs => if q ≤ x then q :: x :: xs else x :: insertQ q xs

def sortQ : List ℚ → List ℚ
  | [] => []
  | x :: xs => insertQ x (sortQ xs)

/-- `Series.median` skipping NaN: sort the present values; odd count takes
the middle element, even count averages the two middle elements, empty
input yields NaN (`none`). -/
def medianQ (l : List ℚ) : Option ℚ :=
  let s := sortQ l
  let n := s.length
  if n = 0 then none
  else if n % 2 = 1 then some (s.getD (n / 2) 0)
  else some ((s.getD (n / 2 - 1) 0 + s.getD (n / 2) 0) / 2)

/-- `df['credit_score'].fillna(m)` on one row, where `m` is the median as
an `Option` (median of an all-NaN column is NaN, and filling with NaN
changes nothing). -/
def fillCredit (m : Option ℚ) (r : LoanRecord) : LoanRecord :=
  if r.credit_score.isNone then { r with credit_score := m } else r

/-- `df['employment_length'].fillna(0)` on one row. -/
def fillEmployment (r : LoanRecord) : LoanRecord :=
  if r.employment_length.isNone then { r with employment_length := some 0 } else r

/-- `handle_missing_values`: drop rows missing a critical field; if any
surviving `credit_score` is absent, fill the absences with the median of
the surviving present scores; if any `employment_length` is absent, fill
it with 0. -/
def handle_missing_values (t : List LoanRecord) : List LoanRecord :=
  let t1 := t.filter criticalPresent
  let t2 :=
    if t1.any (fun r => r.credit_score.isNone) then
      t1.map (fillCredit (medianQ (creditScores t1)))
    else t1
  if t2.any (fun r => r.employment_length.isNone) then t2.map fillEmployment else t2

/-- The fixed `status_mapping` table of `standardize_formats`. -/
def status_mapping : List (String × String) :=
  [("fully paid", "Fully Paid"),
   ("current", "Current"),
   ("charged off", "Charged Off"),
   ("late (31-120 days)", "Late (31-120 days)"),
   ("late (16-30 days)", "Late (16-30 days)")]

/-- `df['loan_status'].str.lower().map(lambda x: status_mapping.get(x,
x.title()))` on one cell value: lower-case, look up in the mapping, and
fall back to `title()` of the looked-up (lower-cased) value. -/
def mapStatus (s : String) : String :=
  let x := pyLower s
  match status_mapping.lookup x with
  | some v => v
  | none => pyTitle x

/-- The whole `loan_status` treatment of `standardize_formats`: the
mapping step followed by the whitespace trim. -/
def cleanStatus (s : String) : String := pyStrip (mapStatus s)

/-- `standardize_formats` on one row: normalize `loan_status`, trim
`loan_status` and `purpose`, parse the three date columns
(`errors='coerce'`).  String accessors propagate NaN. -/
def standardizeRecord (r : LoanRecord) : LoanRecord :=
  { r with
    loan_status := (r.loan_status.map mapStatus).map pyStrip
    purpose := r.purpose.map pyStrip
    application_date := toDatetime r.application_date
    approval_date := toDatetime r.approval_date
    disbursement_date := toDatetime r.disbursement_date }

def standardize_formats (t : List LoanRecord) : List LoanRecord :=
  t.map standardizeRecord

/-- `df[df['loan_amount'] > 0]` row predicate; a NaN comparison is false,
so an absent cell fails the filter. -/
def validLoanAmount (r : LoanRecord) : Bool :=
  match r.loan_amount with
  | some q => decide (0 < q)
  | none => false

/-- `df[(df['interest_rate'] >= 0) & (df['interest_rate'] <= 50)]` row
predicate. -/
def validInterestRate (r : LoanRecord) : Bool :=
  match r.interest_rate with
  | some q => decide (0 ≤ q ∧ q ≤ 50)
  | none => false

/-- `df[(df['credit_score'] >= 300) & (df['credit_score'] <= 850)]` row
predicate. -/
def validCreditScore (r : LoanRecord) : Bool :=
  match r.credit_score with
  | some q => decide (300 ≤ q ∧ q ≤ 850)
  | none => false

/-- `df[df['annual_income'] > 0]` row predicate. -/
def validAnnualIncome (r : LoanRecord) : Bool :=
  match r.annual_income with
  | some q => decide (0 < q)
  | none => false

/-- `validate_data_ranges`: the four successive boolean filters of the
source, in source order. -/
def validate_data_ranges (t : List LoanRecord) : List LoanRecord :=
  (((t.filter validLoanAmount).filter validInterestRate).filter
      validCreditScore).filter validAnnualIncome

/-- numpy/pandas `round` ties to even on the scaled value. -/
def roundHalfEven (y : ℚ) : ℤ :=
  let f := y.floor
  if y - f < 1 / 2 then f
  else if 1 / 2 < y - f then f + 1
  else if f % 2 = 0 then f else f + 1

/-- `Series.round(n)`: round to `n` decimal places, ties to even. -/
def roundTo (n : ℕ) (q : ℚ) : ℚ :=
  (roundHalfEven (q * 10 ^ n) : ℚ) / 10 ^ n

/-- `pd.cut(loan_amount, bins=[0, 10000, 25000, inf], labels=['Small',
'Medium', 'Large'])` on one value: left-open right-closed bins; a value
outside every bin gets NaN. -/
def loanCategory (q : ℚ) : Option String :=
  if 0 < q ∧ q ≤ 10000 then some "Small"
  else if 10000 < q ∧ q ≤ 25000 then some "Medium"
  else if 25000 < q then some "Large"
  else none

/-- `pd.cut(credit_score, bins=[0, 600, 650, 700, 750, 850], labels=...)`
on one value: left-open right-closed bins; values ≤ 0 or > 850 get NaN. -/
def creditBand (q : ℚ) : Option String :=
  if 0 < q ∧ q ≤ 600 then some "Very Poor"
  else if 600 < q ∧ q ≤ 650 then some "Poor"
  else if 650 < q ∧ q ≤ 700 then some "Fair"
  else if 700 < q ∧ q ≤ 750 then some "Good"
  else if 750 < q ∧ q ≤ 850 then some "Excellent"
  else none

/-- `add_calculated_fields` on one row: the two rounded arithmetic columns
(NaN-propagating, as pandas arithmetic on NaN yields NaN) and the two
`pd.cut` buckets. -/
def enrichRecord (r : LoanRecord) : LoanRecord :=
  { r with
    loan_to_income :=
      match r.loan_amount, r.annual_income with
      | some l, some a => some (roundTo 4 (l / a))
      | _, _ => none
    total_interest :=
      match r.monthly_payment, r.loan_term, r.loan_amount with
      | some m, some term, some l => some (roundTo 2 (m * term - l))
      | _, _, _ => none
    loan_category := r.loan_amount.bind loanCategory
    credit_band := r.credit_score.bind creditBand }

def add_calculated_fields (t : List LoanRecord) : List LoanRecord :=
  t.map enrichRecord

/-- The five-stage cleaning pipeline of `main` (between the Loader and the
Writer/Reporter). -/
def runPipeline (t : List LoanRecord) : List LoanRecord :=
  add_calculated_fields
    (validate_data_ranges
      (standardize_formats
        (handle_missing_values
          (remove_duplicates t))))

theorem removeDupSeen_sublist (seen : List (Option String × Option ℚ × Option DateVal))
    (t : List LoanRecord) : (removeDupSeen seen t).Sublist t := by
  induction t generalizing seen with
  | nil => simp [removeDupSeen]
  | cons r rs ih =>
    rw [removeDupSeen]
    split
    · exact (ih seen).trans (List.sublist_cons_self r rs)
    · exact List.Sublist.cons₂ r (ih _)

theorem remove_duplicates_sublist (t : List LoanRecord) :
    (remove_duplicates t).Sublist t :=
  removeDupSeen_sublist [] t

theorem mem_of_mem_remove_duplicates {r : LoanRecord} {t : List LoanRecord}
    (h : r ∈ remove_duplicates t) : r ∈ t :=
  (remove_duplicates_sublist t).mem h

theorem removeDupSeen_filter_key (seen : List (Option String × Option ℚ × Option DateVal))
    (t : List LoanRecord) (k : Option String × Option ℚ × Option DateVal) :
    (removeDupSeen seen t).filter (fun r => decide (dedupKey r = k)) =
      if k ∈ seen then [] else (t.filter (fun r => decide (dedupKey r = k))).take 1 := by
  induction t generalizing seen with
  | nil => simp only [removeDupSeen, List.filter_nil, List.take_nil, ite_self]
  | cons r rs ih =>
    rw [removeDupSeen]
    by_cases hseen : dedupKey r ∈ seen
    · rw [if_pos hseen, ih seen]
      by_cases hk : dedupKey r = k
      · rw [if_pos (hk ▸ hseen), if_pos (hk ▸ hseen)]
      · rw [List.filter_cons_of_neg (by simpa using hk)]
    · rw [if_neg hseen]
      by_cases hk : dedupKey r = k
      · rw [List.filter_cons_of_pos (by simpa using hk), ih (dedupKey r :: seen),
          if_pos (hk ▸ List.mem_cons_self (dedupKey r) seen),
          if_neg (hk ▸ hseen), List.filter_cons_of_pos (by simpa using hk),
          List.take_succ_cons, List.take_zero]
      · rw [List.filter_cons_of_neg (by simpa using hk), ih (dedupKey r :: seen)]
        by_cases hks : k ∈ seen
        · rw [if_pos (List.mem_cons.mpr (Or.inr hks)), if_pos hks]
        · have : k ∉ dedupKey r :: seen := by
            intro hc
            rcases List.mem_cons.mp hc with he | hm
            · exact hk he.symm
            · exact hks hm
          rw [if_neg this, if_neg hks, List.filter_cons_of_neg (by simpa using hk)]

theorem remove_duplicates_filter_key (t : List LoanRecord)
    (k : Option String × Option ℚ × Option DateVal) :
    (remove_duplicates t).filter (fun r => decide (dedupKey r = k)) =
      (t.filter (fun r => decide (dedupKey r = k))).take 1 := by
  rw [remove_duplicates, removeDupSeen_filter_key, if_neg (List.not_mem_nil k)]

theorem key_not_mem_seen (seen : List (Option String × Option ℚ × Option DateVal))
    (t : List LoanRecord) : ∀ x ∈ removeDupSeen seen t, dedupKey x ∉ seen := by
  induction t generalizing seen with
  | nil => simp [removeDupSeen]
  | cons r rs ih =>
    rw [removeDupSeen]
    split
    · exact ih seen
    · rename_i hseen
      intro x hx
      rcases List.mem_cons.mp hx with rfl | hx2
      · exact hseen
      · exact fun hc => ih (dedupKey r :: seen) x hx2 (List.mem_cons.mpr (Or.inr hc))

theorem pairwise_key_removeDupSeen (seen : List (Option String × Option ℚ × Option DateVal))
    (t : List LoanRecord) :
    (removeDupSeen seen t).Pairwise (fun a b => dedupKey a ≠ dedupKey b) := by
  induction t generalizing seen with
  | nil => simp [removeDupSeen]
  | cons r rs ih =>
    rw [removeDupSeen]
    split
    · exact ih seen
    · refine List.Pairwise.cons ?_ (ih _)
      intro b hb heq
      exact key_not_mem_seen (dedupKey r :: seen) rs b hb
        (heq ▸ List.mem_cons_self (dedupKey r) seen)

theorem pairwise_key_remove_duplicates (t : List LoanRecord) :
    (remove_duplicates t).Pairwise (fun a b => dedupKey a ≠ dedupKey b) :=
  pairwise_key_removeDupSeen [] t

theorem removeDupSeen_eq_self (seen : List (Option String × Option ℚ × Option DateVal))
    (t : List LoanRecord) (h : t.Pairwise (fun a b => dedupKey a ≠ dedupKey b))
    (h2 : ∀ x ∈ t, dedupKey x ∉ seen) : removeDupSeen seen t = t := by
  induction t generalizing seen with
  | nil => rfl
  | cons r rs ih =>
    rcases List.pairwise_cons.mp h with ⟨hr, hrs⟩
    rw [removeDupSeen, if_neg (h2 r (List.mem_cons_self r rs))]
    congr 1
    refine ih _ hrs ?_
    intro x hx hc
    rcases List.mem_cons.mp hc with he | hm
    · exact hr x hx he.symm
    · exact h2 x (List.mem_cons_of_mem r hx) hm

theorem remove_duplicates_eq_self (t : List LoanRecord)
    (h : t.Pairwise (fun a b => dedupKey a ≠ dedupKey b)) :
    remove_duplicates t = t :=
  removeDupSeen_eq_self [] t h (by simp)

/-- C4: the Deduplicator keeps, for every dedup key, exactly the first
record of the group with that key, drops the rest, and preserves the
relative order of the kept records: its output is a sublist of the input,
and restricting either table to the records with any fixed
(customer_id, loan_amount, application_date) key — absent components
comparing equal via `Option` equality — the output holds exactly the first
element of the group, so a nonempty group of N records leaves exactly one
survivor, the first in original order. -/
theorem deduplicator_keeps_first_of_each_group (t : List LoanRecord) :
    (remove_duplicates t).Sublist t ∧
    (∀ k, (remove_duplicates t).filter (fun r => decide (dedupKey r = k)) =
      (t.filter (fun r => decide (dedupKey r = k))).take 1) ∧
    (∀ k, k ∈ t.map dedupKey →
      ((remove_duplicates t).filter (fun r => decide (dedupKey r = k))).length = 1) := by
  refine ⟨remove_duplicates_sublist t, remove_duplicates_filter_key t, ?_⟩
  intro k hk
  rcases List.mem_map.mp hk with ⟨r, hr, hrk⟩
  rw [remove_duplicates_filter_key t k, List.length_take]
  have hne : t.filter (fun r => decide (dedupKey r = k)) ≠ [] := by
    intro hnil
    have : r ∈ t.filter (fun r => decide (dedupKey r = k)) :=
      List.mem_filter.mpr ⟨hr, by simp [hrk]⟩
    rw [hnil] at this
    simp at this
  have := List.length_pos.mpr hne
  omega

/-- C4 witness: in a three-record table whose first and third record share
the dedup key — with both application_dates absent, so absent compares
equal to absent — the key's group keeps exactly its first record. -/
theorem deduplicator_keeps_first_of_each_group_witness :
    ((remove_duplicates
        [{ loan_id := some "a", customer_id := some "c", loan_amount := some 10,
           annual_income := none, monthly_payment := none, interest_rate := none,
           credit_score := none, employment_length := none, loan_term := none,
           loan_status := some "current", purpose := none, application_date := none,
           approval_date := none, disbursement_date := none },
         { loan_id := some "b", customer_id := some "d", loan_amount := some 11,
           annual_income := none, monthly_payment := none, interest_rate := none,
           credit_score := none, employment_length := none, loan_term := none,
           loan_status := some "current", purpose := none, application_date := none,
           approval_date := none, disbursement_date := none },
         { loan_id := some "e", customer_id := some "c", loan_amount := some 10,
           annual_income := none, monthly_payment := none, interest_rate := none,
           credit_score := none, employment_length := none, loan_term := none,
           loan_status := some "late", purpose := none, application_date := none,
           approval_date := none, disbursement_date := none }]).filter
      (fun r => decide (dedupKey r = (some "c", some 10, none)))).length = 1 :=
  (deduplicator_keeps_first_of_each_group _).2.2 (some "c", some 10, none) (by decide)

theorem fillEmployment_of_some (r : LoanRecord) (h : r.employment_length.isNone = false) :
    fillEmployment r = r := by
  simp [fillEmployment, h]

theorem fillCredit_of_some (m : Option ℚ) (r : LoanRecord)
    (h : r.credit_score.isNone = false) : fillCredit m r = r := by
  simp [fillCredit, h]

/-- `handle_missing_values` as one map over the critically-complete rows:
fill an absent `credit_score` with the (optional) median of the surviving
present scores, then fill an absent `employment_length` with 0.  The two
guarding `isnull().any()` checks of the source are no-ops exactly when the
corresponding fill would change nothing. -/
theorem handle_missing_eq (t : List LoanRecord) :
    handle_missing_values t =
      (t.filter criticalPresent).map (fun r =>
        fillEmployment
          (fillCredit (medianQ (creditScores (t.filter criticalPresent))) r)) := by
  unfold handle_missing_values
  set t1 := t.filter criticalPresent with ht1
  set m := medianQ (creditScores t1) with hm
  by_cases h1 : t1.any (fun r => r.credit_score.isNone)
  · simp only [if_pos h1]
    by_cases h2 : (t1.map (fillCredit m)).any (fun r => r.employment_length.isNone)
    · simp only [if_pos h2, List.map_map]
      rfl
    · simp only [if_neg h2]
      rw [eq_comm]
      apply List.map_congr_left
      intro a _
      have h2' := List.any_eq_false.mp (Bool.eq_false_iff.mpr h2)
      have : (fillCredit m a).employment_length.isNone = false := by
        by_contra hc
        exact absurd (by simpa using hc)
          (by simpa using h2' (fillCredit m a) (List.mem_map_of_mem _ (by assumption)))
      rw [fillEmployment_of_some _ this]
  · simp only [if_neg h1]
    have h1' := List.any_eq_false.mp (Bool.eq_false_iff.mpr h1)
    by_cases h2 : t1.any (fun r => r.employment_length.isNone)
    · simp only [if_pos h2]
      apply List.map_congr_left
      intro a ha
      rw [fillCredit_of_some m a (Bool.eq_false_iff.mpr (h1' a ha))]
    · simp only [if_neg h2]
      have h2' := List.any_eq_false.mp (Bool.eq_false_iff.mpr h2)
      rw [eq_comm]
      have : ∀ a ∈ t1, fillEmployment (fillCredit m a) = id a := by
        intro a ha
        rw [fillCredit_of_some m a (Bool.eq_false_iff.mpr (h1' a ha)),
          fillEmployment_of_some a (Bool.eq_false_iff.mpr (h2' a ha))]
        rfl
      rw [List.map_congr_left this, List.map_id]

theorem length_insertQ (q : ℚ) (l : List ℚ) : (insertQ q l).length = l.length + 1 := by
  induction l with
  | nil => rfl
  | cons x xs ih =>
    rw [insertQ]
    split
    · rfl
    · simp [ih]

theorem length_sortQ (l : List ℚ) : (sortQ l).length = l.length := by
  induction l with
  | nil => rfl
  | cons x xs ih => rw [sortQ, length_insertQ, ih, List.length_cons]

theorem medianQ_isSome (l : List ℚ) (h : l ≠ []) : (medianQ l).isSome := by
  have hl : (sortQ l).length ≠ 0 := by
    rw [length_sortQ]
    simpa using fun he => h (List.length_eq_zero.mp he)
  unfold medianQ
  simp only [if_neg hl]
  split <;> rfl

theorem medianQ_nil : medianQ [] = none := rfl

theorem fillCredit_customer (m : Option ℚ) (r : LoanRecord) :
    (fillCredit m r).customer_id = r.customer_id := by
  unfold fillCredit; split <;> rfl

theorem fillCredit_base (m : Option ℚ) (r : LoanRecord) :
    (fillCredit m r).loan_id = r.loan_id ∧
    (fillCredit m r).customer_id = r.customer_id ∧
    (fillCredit m r).loan_amount = r.loan_amount ∧
    (fillCredit m r).loan_status = r.loan_status ∧
    (fillCredit m r).application_date = r.application_date ∧
    (fillCredit m r).employment_length = r.employment_length := by
  unfold fillCredit; split <;> exact ⟨rfl, rfl, rfl, rfl, rfl, rfl⟩

theorem fillEmployment_base (r : LoanRecord) :
    (fillEmployment r).loan_id = r.loan_id ∧
    (fillEmployment r).customer_id = r.customer_id ∧
    (fillEmployment r).loan_amount = r.loan_amount ∧
    (fillEmployment r).loan_status = r.loan_status ∧
    (fillEmployment r).application_date = r.application_date ∧
    (fillEmployment r).credit_score = r.credit_score := by
  unfold fillEmployment; split <;> exact ⟨rfl, rfl, rfl, rfl, rfl, rfl⟩

theorem fillEmployment_isSome (r : LoanRecord) :
    (fillEmployment r).employment_length.isSome := by
  unfold fillEmployment
  split
  · rfl
  · rename_i h
    cases hc : r.employment_length with
    | none => rw [hc] at h; simp at h
    | some v => simp [hc]

theorem dedupKey_fills (m : Option ℚ) (r : LoanRecord) :
    dedupKey (fillEmployment (fillCredit m r)) = dedupKey r := by
  unfold dedupKey
  rw [(fillEmployment_base _).2.1, (fillEmployment_base _).2.2.1,
    (fillEmployment_base _).2.2.2.2.1, (fillCredit_base m r).2.1,
    (fillCredit_base m r).2.2.1, (fillCredit_base m r).2.2.2.2.1]

theorem criticalPresent_fills (m : Option ℚ) (r : LoanRecord) :
    criticalPresent (fillEmployment (fillCredit m r)) = criticalPresent r := by
  unfold criticalPresent
  rw [(fillEmployment_base _).1, (fillEmployment_base _).2.1,
    (fillEmployment_base _).2.2.1, (fillEmployment_base _).2.2.2.1,
    (fillCredit_base m r).1, (fillCredit_base m r).2.1,
    (fillCredit_base m r).2.2.1, (fillCredit_base m r).2.2.2.1]

/-- C5: the MissingValueHandler drops exactly the records missing a
critical field; its output is that filtered table with each absent
`credit_score` replaced by the median of the post-drop present scores
(a no-op when every surviving score is absent, since the median of an
empty population is absent) and each absent `employment_length` replaced
by 0.  Consequently: if at least one surviving record has a present
`credit_score`, every output record has a present `credit_score`; if all
surviving scores are absent, no fill occurs and they all remain absent
(the run continues — the stage is total); every output record has a
present `employment_length` and all four critical fields present. -/
theorem missing_value_handler_policy (t : List LoanRecord) :
    (handle_missing_values t =
      (t.filter criticalPresent).map (fun r =>
        fillEmployment
          (fillCredit (medianQ (creditScores (t.filter criticalPresent))) r))) ∧
    ((∃ r ∈ t.filter criticalPresent, r.credit_score.isSome) →
      ∀ r' ∈ handle_missing_values t, r'.credit_score.isSome) ∧
    ((∀ r ∈ t.filter criticalPresent, r.credit_score = none) →
      ∀ r' ∈ handle_missing_values t, r'.credit_score = none) ∧
    (∀ r' ∈ handle_missing_values t, r'.employment_length.isSome) ∧
    (∀ r' ∈ handle_missing_values t, criticalPresent r' = true) := by
  set t1 := t.filter criticalPresent with ht1
  set m := medianQ (creditScores t1) with hm
  refine ⟨handle_missing_eq t, ?_, ?_, ?_, ?_⟩
  · rintro ⟨r0, hr0, hr0s⟩ r' hr'
    rw [handle_missing_eq t] at hr'
    rcases List.mem_map.mp hr' with ⟨r, _, rfl⟩
    rw [(fillEmployment_base _).2.2.2.2.2]
    have hms : m.isSome := by
      apply medianQ_isSome
      rcases Option.isSome_iff_exists.mp hr0s with ⟨q, hq⟩
      intro hnil
      have : q ∈ creditScores t1 := List.mem_filterMap.mpr ⟨r0, hr0, hq⟩
      rw [hnil] at this
      simp at this
    unfold fillCredit
    split
    · exact hms
    · rename_i h
      cases hc : r.credit_score with
      | none => rw [hc] at h; simp at h
      | some v => simp [hc]
  · intro hall r' hr'
    rw [handle_missing_eq t] at hr'
    rcases List.mem_map.mp hr' with ⟨r, hr, rfl⟩
    rw [(fillEmployment_base _).2.2.2.2.2]
    have hscores : creditScores t1 = [] := by
      rw [List.eq_nil_iff_forall_not_mem]
      intro q hq
      rcases List.mem_filterMap.mp hq with ⟨a, ha, haq⟩
      rw [hall a ha] at haq
      exact Option.noConfusion haq
    have hmn : m = none := by rw [hm, hscores]; rfl
    unfold fillCredit
    split
    · exact hmn
    · exact hall r hr
  · intro r' hr'
    rw [handle_missing_eq t] at hr'
    rcases List.mem_map.mp hr' with ⟨r, _, rfl⟩
    exact fillEmployment_isSome _
  · intro r' hr'
    rw [handle_missing_eq t] at hr'
    rcases List.mem_map.mp hr' with ⟨r, hr, rfl⟩
    rw [criticalPresent_fills]
    exact (List.mem_filter.mp hr).2

/-- C5 witness: a two-record table whose second record misses the critical
`loan_id`, whose first record has a present `credit_score`, applied to the
present-score conjunct: the surviving record keeps a present score. -/
theorem missing_value_handler_policy_witness :
    ∀ r' ∈ handle_missing_values
      [{ loan_id := some "a", customer_id := some "c", loan_amount := some 10,
         annual_income := none, monthly_payment := none, interest_rate := none,
         credit_score := some 640, employment_length := none, loan_term := none,
         loan_status := some "current", purpose := none, application_date := none,
         approval_date := none, disbursement_date := none },
       { loan_id := none, customer_id := some "d", loan_amount := some 11,
         annual_income := none, monthly_payment := none, interest_rate := none,
         credit_score := none, employment_length := some 1, loan_term := none,
         loan_status := some "current", purpose := none, application_date := none,
         approval_date := none, disbursement_date := none }],
      r'.credit_score.isSome :=
  (missing_value_handler_policy _).2.1 (by decide)

/-- A raw record as the Loader produces it, complete and in-range except
for the textual application date, which is the parameter. -/
def mkRawRecord (lid : String) (ds : String) : LoanRecord :=
  { loan_id := some lid
    customer_id := some "CUST-7"
    loan_amount := some 5000
    annual_income := some 52000
    monthly_payment := some 230
    interest_rate := some 11
    credit_score := some 702
    employment_length := some 4
    loan_term := some 24
    loan_status := some "current"
    purpose := some "car"
    application_date := some (DateVal.raw ds)
    approval_date := none
    disbursement_date := none }

/-- Two otherwise-identical records whose raw application dates are
different strings that both fail to parse: each is a dash-separated
all-digit date whose month field (31, resp. 99) is out of range, so
`pd.to_datetime(errors='coerce')` rejects it under format inference and
under the per-element dateutil fallback alike and yields NaT — exactly as
`parseDateString` does.  The Deduplicator (which runs before date parsing)
sees two distinct keys, and the FormatStandardizer then coerces both dates
to the same absent marker. -/
def unparseableDatesTable : List LoanRecord :=
  [mkRawRecord "L-1" "2024-31-99", mkRawRecord "L-2" "2024-99-31"]

/-- C1 counterexample: on `unparseableDatesTable` the full pipeline hands
the Writer a table in which two records share the
(customer_id, loan_amount, application_date) triple (both dates absent,
absent comparing equal to absent), so the claimed Writer-table invariant
fails. -/
theorem writer_key_uniqueness_fails :
    ¬ ((runPipeline unparseableDatesTable).map dedupKey).Nodup := by
  decide

/-- C1 (amended): the key-uniqueness invariant holds on the table handed
to the FormatStandardizer — after deduplication and missing-value
handling, no two records share the (customer_id, loan_amount,
application_date) triple, absent comparing equal to absent.  (Date parsing
in the FormatStandardizer can subsequently re-identify keys, so the
invariant does not survive to the Writer.) -/
theorem dedup_key_nodup_before_standardize (t : List LoanRecord) :
    ((handle_missing_values (remove_duplicates t)).map dedupKey).Nodup := by
  rw [handle_missing_eq, List.map_map]
  have h1 := (pairwise_key_remove_duplicates t).filter criticalPresent
  show List.Pairwise (fun a b => a ≠ b) _
  rw [List.pairwise_map]
  refine h1.imp ?_
  intro a b hab
  simp only [Function.comp_apply, dedupKey_fills]
  exact hab

/-- A one-record table whose raw status has a leading space: the first run
cannot find the lower-cased value " late (31-120 days)" in the mapping
(the key has no leading space) and falls back to title-casing, producing
"Late (31-120 Days)"; a second run lower-cases that to a genuine mapping
key and rewrites it to the mapping's value "Late (31-120 days)". -/
def oddStatusTable : List LoanRecord :=
  [{ mkRawRecord "L-3" "2024-01-02" with
      loan_status := some " late (31-120 days)" }]

/-- C2 counterexample: the pipeline is not idempotent, in two independent
ways.  On `unparseableDatesTable` the first run outputs two records whose
dedup keys have become equal (both unparseable dates were coerced to
absent after deduplication), so a second run's Deduplicator removes a
record; on `oddStatusTable` the second run removes nothing but rewrites a
`loan_status` value ("Late (31-120 Days)" to "Late (31-120 days)"), so
the second output differs from the first in both cases. -/
theorem pipeline_not_idempotent :
    (runPipeline (runPipeline unparseableDatesTable)).length ≠
      (runPipeline unparseableDatesTable).length ∧
    (runPipeline (runPipeline oddStatusTable)).map (fun r => r.loan_status) ≠
      (runPipeline oddStatusTable).map (fun r => r.loan_status) := by
  constructor
  · decide
  · decide

/-- C3: `loan_status` standardization maps through the fixed five-entry
table after lower-casing; when the lower-cased value is not a key, the
result is the title-case transformation of the original, non-lower-cased
string — the code titles the lower-cased copy, but ASCII title-casing is
insensitive to prior lower-casing (`pyTitle_pyLower`), so the spec's
description holds.  Trimming happens after this step (`cleanStatus`):
raw "  FULLY PAID " standardizes to "Fully Paid" and raw
"Unknown Status" standardizes to "Unknown Status". -/
theorem status_fallback_titles_original :
    (∀ s v, status_mapping.lookup (pyLower s) = some v → mapStatus s = v) ∧
    (∀ s, status_mapping.lookup (pyLower s) = none → mapStatus s = pyTitle s) ∧
    cleanStatus "  FULLY PAID " = "Fully Paid" ∧
    cleanStatus "Unknown Status" = "Unknown Status" := by
  refine ⟨?_, ?_, by decide, by decide⟩
  · intro s v h
    simp only [mapStatus, h]
  · intro s h
    simp only [mapStatus, h]
    exact pyTitle_pyLower s

/-- C3 witness: the mapped branch applied at the concrete raw value
"CURRENT". -/
theorem status_fallback_titles_original_witness :
    mapStatus "CURRENT" = "Current" :=
  status_fallback_titles_original.1 "CURRENT" "Current" (by decide)

/-- C7: the FormatStandardizer is total and row-preserving: the output
table has exactly the input's length for every input; each output record's
three date fields are `pd.to_datetime(·, errors='coerce')` of the input
fields; a raw date string that fails to parse is coerced to the absent
marker rather than raising; a parseable one becomes its canonical date;
and every standardized date cell is either absent or a canonical date. -/
theorem standardizer_never_fails (t : List LoanRecord) :
    (standardize_formats t).length = t.length ∧
    (∀ r : LoanRecord,
      (standardizeRecord r).application_date = toDatetime r.application_date ∧
      (standardizeRecord r).approval_date = toDatetime r.approval_date ∧
      (standardizeRecord r).disbursement_date = toDatetime r.disbursement_date) ∧
    (∀ s, parseDateString s = none → toDatetime (some (DateVal.raw s)) = none) ∧
    (∀ s y m d, parseDateString s = some (y, m, d) →
      toDatetime (some (DateVal.raw s)) = some (DateVal.date y m d)) ∧
    (∀ v, toDatetime v = none ∨ ∃ y m d, toDatetime v = some (DateVal.date y m d)) := by
  refine ⟨by simp [standardize_formats], fun r => ⟨rfl, rfl, rfl⟩, ?_, ?_, ?_⟩
  · intro s h
    simp [toDatetime, h]
  · intro s y m d h
    simp [toDatetime, h]
  · intro v
    match v with
    | none => exact Or.inl rfl
    | some (DateVal.date y m d) => exact Or.inr ⟨y, m, d, rfl⟩
    | some (DateVal.raw s) =>
      cases hp : parseDateString s with
      | none => exact Or.inl (by simp [toDatetime, hp])
      | some p =>
        exact Or.inr ⟨p.1, p.2.1, p.2.2, by simp [toDatetime, hp]⟩

/-- C7 witness: the coercion branch at the concrete unparseable raw value
"hello". -/
theorem standardizer_never_fails_witness :
    toDatetime (some (DateVal.raw "hello")) = none :=
  (standardizer_never_fails []).2.2.1 "hello" (by decide)

theorem validLoanAmount_iff (r : LoanRecord) :
    validLoanAmount r = true ↔ ∃ q, r.loan_amount = some q ∧ 0 < q := by
  unfold validLoanAmount
  cases h : r.loan_amount with
  | none => simp
  | some q => simp

theorem validInterestRate_iff (r : LoanRecord) :
    validInterestRate r = true ↔ ∃ q, r.interest_rate = some q ∧ 0 ≤ q ∧ q ≤ 50 := by
  unfold validInterestRate
  cases h : r.interest_rate with
  | none => simp
  | some q => simp

theorem validCreditScore_iff (r : LoanRecord) :
    validCreditScore r = true ↔ ∃ q, r.credit_score = some q ∧ 300 ≤ q ∧ q ≤ 850 := by
  unfold validCreditScore
  cases h : r.credit_score with
  | none => simp
  | some q => simp

theorem validAnnualIncome_iff (r : LoanRecord) :
    validAnnualIncome r = true ↔ ∃ q, r.annual_income = some q ∧ 0 < q := by
  unfold validAnnualIncome
  cases h : r.annual_income with
  | none => simp
  | some q => simp

/-- The four successive filters of `validate_data_ranges` collapse to one
filter by the conjunction of the four predicates. -/
theorem validate_eq_filter (t : List LoanRecord) :
    validate_data_ranges t =
      t.filter (fun r => validLoanAmount r && validInterestRate r &&
        validCreditScore r && validAnnualIncome r) := by
  unfold validate_data_ranges
  rw [List.filter_filter, List.filter_filter, List.filter_filter]
  apply List.filter_congr
  intro x _
  cases validLoanAmount x <;> cases validInterestRate x <;>
    cases validCreditScore x <;> cases validAnnualIncome x <;> rfl

/-- C6: the RangeValidator keeps a record iff all four domain predicates
hold (loan_amount > 0, 0 ≤ interest_rate ≤ 50, 300 ≤ credit_score ≤ 850,
annual_income > 0), preserves the order of kept records (output is a
sublist of the input), reports as removed the net number of records
failing at least one predicate (each dropped record counted once), and
hence every record handed to the FieldEnricher satisfies all four
predicates. -/
theorem range_validator_conjunction (t : List LoanRecord) :
    (validate_data_ranges t =
      t.filter (fun r => validLoanAmount r && validInterestRate r &&
        validCreditScore r && validAnnualIncome r)) ∧
    (validate_data_ranges t).Sublist t ∧
    (t.length - (validate_data_ranges t).length =
      (t.filter (fun r => !(validLoanAmount r && validInterestRate r &&
        validCreditScore r && validAnnualIncome r))).length) ∧
    (∀ r ∈ validate_data_ranges t,
      (∃ q, r.loan_amount = some q ∧ 0 < q) ∧
      (∃ q, r.interest_rate = some q ∧ 0 ≤ q ∧ q ≤ 50) ∧
      (∃ q, r.credit_score = some q ∧ 300 ≤ q ∧ q ≤ 850) ∧
      (∃ q, r.annual_income = some q ∧ 0 < q)) := by
  refine ⟨validate_eq_filter t, ?_, ?_, ?_⟩
  · rw [validate_eq_filter]
    exact List.filter_sublist t
  · rw [validate_eq_filter]
    have := List.length_eq_length_filter_add
      (l := t) (fun r => validLoanAmount r && validInterestRate r &&
        validCreditScore r && validAnnualIncome r)
    omega
  · intro r hr
    rw [validate_eq_filter] at hr
    have hp := (List.mem_filter.mp hr).2
    simp only [Bool.and_eq_true] at hp
    exact ⟨(validLoanAmount_iff r).mp hp.1.1.1, (validInterestRate_iff r).mp hp.1.1.2,
      (validCreditScore_iff r).mp hp.1.2, (validAnnualIncome_iff r).mp hp.2⟩

/-- C10 (implicit): a record with an absent `loan_amount`,
`interest_rate`, `credit_score` or `annual_income` fails the corresponding
NaN-rejecting comparison and is removed by the RangeValidator; every
surviving record has all four fields present; and therefore in the final
pipeline output (the Writer's table) `credit_score` is never absent — even
when the median fill was skipped because every surviving score was
absent. -/
theorem range_validator_drops_absent (t : List LoanRecord) :
    (∀ r ∈ validate_data_ranges t,
      r.loan_amount.isSome ∧ r.interest_rate.isSome ∧
      r.credit_score.isSome ∧ r.annual_income.isSome) ∧
    (∀ r : LoanRecord,
      (r.loan_amount = none ∨ r.interest_rate = none ∨
        r.credit_score = none ∨ r.annual_income = none) →
      r ∉ validate_data_ranges t) ∧
    (∀ t0 : List LoanRecord, ∀ r ∈ runPipeline t0,
      r.credit_score.isSome ∧ r.loan_amount.isSome ∧
      r.interest_rate.isSome ∧ r.annual_income.isSome) := by
  have hmem : ∀ r ∈ validate_data_ranges t,
      r.loan_amount.isSome ∧ r.interest_rate.isSome ∧
      r.credit_score.isSome ∧ r.annual_income.isSome := by
    intro r hr
    rw [validate_eq_filter] at hr
    have hp := (List.mem_filter.mp hr).2
    simp only [Bool.and_eq_true] at hp
    rcases (validLoanAmount_iff r).mp hp.1.1.1 with ⟨q1, h1, _⟩
    rcases (validInterestRate_iff r).mp hp.1.1.2 with ⟨q2, h2, _⟩
    rcases (validCreditScore_iff r).mp hp.1.2 with ⟨q3, h3, _⟩
    rcases (validAnnualIncome_iff r).mp hp.2 with ⟨q4, h4, _⟩
    exact ⟨by simp [h1], by simp [h2], by simp [h3], by simp [h4]⟩
  refine ⟨hmem, ?_, ?_⟩
  · intro r habs hr
    rcases hmem r hr with ⟨h1, h2, h3, h4⟩
    rcases habs with h | h | h | h
    · rw [h] at h1; simp at h1
    · rw [h] at h2; simp at h2
    · rw [h] at h3; simp at h3
    · rw [h] at h4; simp at h4
  · intro t0 r hr
    rcases List.mem_map.mp hr with ⟨r', hr', rfl⟩
    have hv : ∀ x ∈ validate_data_ranges
        (standardize_formats (handle_missing_values (remove_duplicates t0))),
        x.loan_amount.isSome ∧ x.interest_rate.isSome ∧
        x.credit_score.isSome ∧ x.annual_income.isSome := by
      intro x hx
      rw [validate_eq_filter] at hx
      have hp := (List.mem_filter.mp hx).2
      simp only [Bool.and_eq_true] at hp
      rcases (validLoanAmount_iff x).mp hp.1.1.1 with ⟨q1, h1, _⟩
      rcases (validInterestRate_iff x).mp hp.1.1.2 with ⟨q2, h2, _⟩
      rcases (validCreditScore_iff x).mp hp.1.2 with ⟨q3, h3, _⟩
      rcases (validAnnualIncome_iff x).mp hp.2 with ⟨q4, h4, _⟩
      exact ⟨by simp [h1], by simp [h2], by simp [h3], by simp [h4]⟩
    rcases hv r' hr' with ⟨h1, h2, h3, h4⟩
    exact ⟨h3, h1, h2, h4⟩

/-- C10 witness: a single record with an absent `credit_score` (all other
validated fields in range) is removed by the RangeValidator. -/
theorem range_validator_drops_absent_witness :
    { loan_id := some "a", customer_id := some "c", loan_amount := some 100,
      annual_income := some 100, monthly_payment := none, interest_rate := some 1,
      credit_score := none, employment_length := none, loan_term := none,
      loan_status := some "current", purpose := none, application_date := none,
      approval_date := none, disbursement_date := none : LoanRecord } ∉
      validate_data_ranges
        [{ loan_id := some "a", customer_id := some "c", loan_amount := some 100,
           annual_income := some 100, monthly_payment := none, interest_rate := some 1,
           credit_score := none, employment_length := none, loan_term := none,
           loan_status := some "current", purpose := none, application_date := none,
           approval_date := none, disbursement_date := none }] :=
  (range_validator_drops_absent _).2.1 _ (Or.inr (Or.inr (Or.inl rfl)))

theorem loanCategory_small_iff (q : ℚ) :
    loanCategory q = some "Small" ↔ 0 < q ∧ q ≤ 10000 := by
  unfold loanCategory
  split_ifs with h1 h2 h3
  · exact iff_of_true rfl h1
  · exact iff_of_false (by decide) h1
  · exact iff_of_false (by decide) h1
  · exact iff_of_false (by decide) h1

theorem loanCategory_medium_iff (q : ℚ) :
    loanCategory q = some "Medium" ↔ 10000 < q ∧ q ≤ 25000 := by
  unfold loanCategory
  split_ifs with h1 h2 h3
  · exact iff_of_false (by decide) (fun hc => by linarith [h1.2, hc.1])
  · exact iff_of_true rfl h2
  · exact iff_of_false (by decide) (fun hc => by linarith [hc.2])
  · exact iff_of_false (by decide) h2

theorem loanCategory_large_iff (q : ℚ) :
    loanCategory q = some "Large" ↔ 25000 < q := by
  unfold loanCategory
  split_ifs with h1 h2 h3
  · exact iff_of_false (by decide) (fun hc => by linarith [h1.2])
  · exact iff_of_false (by decide) (fun hc => by linarith [h2.2])
  · exact iff_of_true rfl h3
  · exact iff_of_false (by decide) h3

theorem creditBand_cases (q : ℚ) :
    (creditBand q = some "Very Poor" ↔ 0 < q ∧ q ≤ 600) ∧
    (creditBand q = some "Poor" ↔ 600 < q ∧ q ≤ 650) ∧
    (creditBand q = some "Fair" ↔ 650 < q ∧ q ≤ 700) ∧
    (creditBand q = some "Good" ↔ 700 < q ∧ q ≤ 750) ∧
    (creditBand q = some "Excellent" ↔ 750 < q ∧ q ≤ 850) := by
  unfold creditBand
  split_ifs with h1 h2 h3 h4 h5 <;>
    refine ⟨?_, ?_, ?_, ?_, ?_⟩ <;> simp_all <;> intro hc <;> linarith

theorem loanCategory_isSome (q : ℚ) (h : 0 < q) : (loanCategory q).isSome := by
  unfold loanCategory
  split_ifs with h1 h2 h3 <;> try rfl
  push_neg at h1 h2 h3
  have := h1 h
  have := h2 this
  linarith

theorem creditBand_isSome (q : ℚ) (h1 : 300 ≤ q) (h2 : q ≤ 850) :
    (creditBand q).isSome := by
  unfold creditBand
  split_ifs with g1 g2 g3 g4 g5 <;> try rfl
  push_neg at g1 g2 g3 g4 g5
  have ha := g1 (by linarith)
  have hb := g2 ha
  have hc := g3 hb
  have hd := g4 hc
  have he := g5 hd
  linarith

/-- C8: `pd.cut` buckets are left-open right-closed: loan_amount lands in
Small on (0, 10000], Medium on (10000, 25000], Large on (25000, ∞);
credit_score lands in Very Poor on (0, 600], Poor on (600, 650], Fair on
(650, 700], Good on (700, 750], Excellent on (750, 850]; boundary values
fall in the lower bucket (10000 → Small, 650 → Poor; 10000.01 → Medium,
651 → Fair); and under the RangeValidator precondition (loan_amount > 0,
300 ≤ credit_score ≤ 850) every record gets exactly one bucket of each
family (the bucket functions return a value).  The FieldEnricher assigns
exactly these buckets to each record's fields. -/
theorem field_enricher_buckets :
    (∀ q : ℚ, loanCategory q = some "Small" ↔ 0 < q ∧ q ≤ 10000) ∧
    (∀ q : ℚ, loanCategory q = some "Medium" ↔ 10000 < q ∧ q ≤ 25000) ∧
    (∀ q : ℚ, loanCategory q = some "Large" ↔ 25000 < q) ∧
    (∀ q : ℚ, creditBand q = some "Very Poor" ↔ 0 < q ∧ q ≤ 600) ∧
    (∀ q : ℚ, creditBand q = some "Poor" ↔ 600 < q ∧ q ≤ 650) ∧
    (∀ q : ℚ, creditBand q = some "Fair" ↔ 650 < q ∧ q ≤ 700) ∧
    (∀ q : ℚ, creditBand q = some "Good" ↔ 700 < q ∧ q ≤ 750) ∧
    (∀ q : ℚ, creditBand q = some "Excellent" ↔ 750 < q ∧ q ≤ 850) ∧
    loanCategory 10000 = some "Small" ∧
    loanCategory (10000.01 : ℚ) = some "Medium" ∧
    creditBand 650 = some "Poor" ∧
    creditBand 651 = some "Fair" ∧
    (∀ q : ℚ, 0 < q → (loanCategory q).isSome) ∧
    (∀ q : ℚ, 300 ≤ q → q ≤ 850 → (creditBand q).isSome) ∧
    (∀ r : LoanRecord,
      (enrichRecord r).loan_category = r.loan_amount.bind loanCategory ∧
      (enrichRecord r).credit_band = r.credit_score.bind creditBand) :=
  ⟨loanCategory_small_iff, loanCategory_medium_iff, loanCategory_large_iff,
    fun q => (creditBand_cases q).1, fun q => (creditBand_cases q).2.1,
    fun q => (creditBand_cases q).2.2.1, fun q => (creditBand_cases q).2.2.2.1,
    fun q => (creditBand_cases q).2.2.2.2,
    (loanCategory_small_iff 10000).mpr (by norm_num),
    (loanCategory_medium_iff (10000.01 : ℚ)).mpr (by norm_num),
    ((creditBand_cases 650).2.1).mpr (by norm_num),
    ((creditBand_cases 651).2.2.1).mpr (by norm_num),
    loanCategory_isSome, creditBand_isSome,
    fun r => ⟨rfl, rfl⟩⟩

/-- C8 witness: the bucket-totality conjuncts applied at the boundary
values 10000 and 850. -/
theorem field_enricher_buckets_witness :
    (loanCategory 10000).isSome ∧ (creditBand 850).isSome :=
  ⟨field_enricher_buckets.2.2.2.2.2.2.2.2.2.2.2.2.1 10000 (by norm_num),
    field_enricher_buckets.2.2.2.2.2.2.2.2.2.2.2.2.2.1 850 (by norm_num)
      (by norm_num)⟩

/-- C9: on every FieldEnricher input record with its arithmetic source
cells present (the RangeValidator guarantees `annual_income` > 0),
`loan_to_income` is the quotient rounded to 4 decimal places and
`total_interest` is monthly_payment × loan_term − loan_amount rounded to 2
decimal places, negative results kept as-is; concretely 12000 / 60000
rounds to 0.2000 and 500 × 36 − 12000 to 6000.00, and a payment plan
undershooting principal yields a negative `total_interest`. -/
theorem enricher_arithmetic (r : LoanRecord) (l a m term : ℚ)
    (hl : r.loan_amount = some l) (ha : r.annual_income = some a)
    (hapos : 0 < a) (hm : r.monthly_payment = some m)
    (hterm : r.loan_term = some term) :
    (enrichRecord r).loan_to_income = some (roundTo 4 (l / a)) ∧
    (enrichRecord r).total_interest = some (roundTo 2 (m * term - l)) ∧
    roundTo 4 ((12000 : ℚ) / 60000) = 0.2 ∧
    roundTo 2 ((500 : ℚ) * 36 - 12000) = 6000 ∧
    roundTo 2 ((100 : ℚ) * 10 - 2000) = -1000 := by
  have hfloor : ∀ z : ℤ, roundHalfEven (z : ℚ) = z := by
    intro z
    rw [roundHalfEven]
    have h1 : ((z : ℚ)).floor = z := by
      rw [show ((z : ℚ)).floor = ⌊(z : ℚ)⌋ from rfl, Int.floor_intCast]
    rw [h1, if_pos (by norm_num)]
  refine ⟨?_, ?_, ?_, ?_, ?_⟩
  · simp [enrichRecord, hl, ha]
  · simp [enrichRecord, hl, hm, hterm]
  · have h1 : (12000 : ℚ) / 60000 * 10 ^ 4 = ((2000 : ℤ) : ℚ) := by norm_num
    rw [roundTo, h1, hfloor]
    norm_num
  · have h1 : ((500 : ℚ) * 36 - 12000) * 10 ^ 2 = ((600000 : ℤ) : ℚ) := by norm_num
    rw [roundTo, h1, hfloor]
    norm_num
  · have h1 : ((100 : ℚ) * 10 - 2000) * 10 ^ 2 = ((-100000 : ℤ) : ℚ) := by norm_num
    rw [roundTo, h1, hfloor]
    norm_num

/-- C9 witness: the enrichment equations at a concrete record with
loan_amount 12000, annual_income 60000, monthly_payment 500, loan_term
36. -/
theorem enricher_arithmetic_witness :
    (enrichRecord
      { loan_id := some "a", customer_id := some "c", loan_amount := some 12000,
        annual_income := some 60000, monthly_payment := some 500,
        interest_rate := some 10, credit_score := some 700,
        employment_length := some 2, loan_term := some 36,
        loan_status := some "current", purpose := none, application_date := none,
        approval_date := none, disbursement_date := none }).loan_to_income =
      some (roundTo 4 ((12000 : ℚ) / 60000)) :=
  (enricher_arithmetic _ 12000 60000 500 36 rfl rfl (by norm_num) rfl rfl).1

/-- A fully in-range record used as a concrete witness input. -/
def inRangeRecord : LoanRecord :=
  { loan_id := some "a", customer_id := some "c", loan_amount := some 100,
    annual_income := some 100, monthly_payment := none, interest_rate := some 1,
    credit_score := some 700, employment_length := none, loan_term := none,
    loan_status := some "current", purpose := none, application_date := none,
    approval_date := none, disbursement_date := none }

/-- A record with an out-of-range interest rate (75 > 50). -/
def badRateRecord : LoanRecord :=
  { loan_id := some "b", customer_id := some "d", loan_amount := some 100,
    annual_income := some 100, monthly_payment := none, interest_rate := some 75,
    credit_score := some 700, employment_length := none, loan_term := none,
    loan_status := some "current", purpose := none, application_date := none,
    approval_date := none, disbursement_date := none }

/-- C6 witness: the all-predicates conjunct applied to the surviving
record of a concrete two-record table whose second record has an
out-of-range interest rate. -/
theorem range_validator_conjunction_witness :
    ∃ q, inRangeRecord.loan_amount = some q ∧ 0 < q :=
  ((range_validator_conjunction [inRangeRecord, badRateRecord]).2.2.2
    inRangeRecord (by decide)).1

/-- `pd.to_datetime` is idempotent on cells: re-parsing an already
canonical (or absent) date changes nothing. -/
theorem toDatetime_toDatetime (v : Option DateVal) :
    toDatetime (toDatetime v) = toDatetime v := by
  match v with
  | none => rfl
  | some (DateVal.date y m d) => rfl
  | some (DateVal.raw s) =>
    cases hp : parseDateString s with
    | none => simp [toDatetime, hp]
    | some p => simp [toDatetime, hp]

theorem pyStrip_map_pyStrip (p : Option String) :
    (p.map pyStrip).map pyStrip = p.map pyStrip := by
  cases p with
  | none => rfl
  | some s => simp [pyStrip_pyStrip]

theorem mem_handle_critical (x : List LoanRecord) :
    ∀ r ∈ handle_missing_values x,
      criticalPresent r = true ∧ r.employment_length.isSome := by
  rw [handle_missing_eq]
  intro r hr
  rcases List.mem_map.mp hr with ⟨r0, hr0, rfl⟩
  exact ⟨by rw [criticalPresent_fills]; exact (List.mem_filter.mp hr0).2,
    fillEmployment_isSome _⟩

theorem criticalPresent_standardize (x : LoanRecord) :
    criticalPresent (standardizeRecord x) = criticalPresent x := by
  simp [criticalPresent, standardizeRecord, Option.isSome_map']

/-- Invariants of every record in the pipeline's output: all critical
fields present, all four range predicates hold, `credit_score` and
`employment_length` present, `purpose` already trimmed, and all three
date cells already canonical (re-parsing is a no-op). -/
theorem pipeline_output_invariant (t : List LoanRecord) :
    ∀ r ∈ runPipeline t,
      criticalPresent r = true ∧
      validLoanAmount r = true ∧ validInterestRate r = true ∧
      validCreditScore r = true ∧ validAnnualIncome r = true ∧
      r.credit_score.isSome ∧ r.employment_length.isSome ∧
      r.purpose.map pyStrip = r.purpose ∧
      toDatetime r.application_date = r.application_date ∧
      toDatetime r.approval_date = r.approval_date ∧
      toDatetime r.disbursement_date = r.disbursement_date := by
  intro r hr
  rcases List.mem_map.mp hr with ⟨r1, hr1, rfl⟩
  rw [validate_eq_filter] at hr1
  have hpred := (List.mem_filter.mp hr1).2
  have hr1s := (List.mem_filter.mp hr1).1
  simp only [Bool.and_eq_true] at hpred
  rcases List.mem_map.mp hr1s with ⟨r2, hr2, rfl⟩
  have hcrit2 := mem_handle_critical _ r2 hr2
  refine ⟨?_, hpred.1.1.1, hpred.1.1.2, hpred.1.2, hpred.2, ?_, ?_, ?_, ?_, ?_, ?_⟩
  · show criticalPresent (standardizeRecord r2) = true
    rw [criticalPresent_standardize]
    exact hcrit2.1
  · rcases (validCreditScore_iff _).mp hpred.1.2 with ⟨q, hq, _⟩
    show (standardizeRecord r2).credit_score.isSome
    rw [hq]
    rfl
  · exact hcrit2.2
  · exact pyStrip_map_pyStrip r2.purpose
  · exact toDatetime_toDatetime r2.application_date
  · exact toDatetime_toDatetime r2.approval_date
  · exact toDatetime_toDatetime r2.disbursement_date

theorem enrichRecord_enrichRecord (r : LoanRecord) :
    enrichRecord (enrichRecord r) = enrichRecord r := rfl

/-- C2 (amended): a second application of the five-stage pipeline to the
output of a first run returns that output unchanged, provided the output's
(customer_id, loan_amount, application_date) keys are pairwise distinct
(date coercion after dedup can merge keys, see the counterexample) and
every output `loan_status` is a fixed point of the status normalization.
Under those conditions every stage of the second run removes zero records
and changes no field values. -/
theorem pipeline_idempotent_after_first_run (t : List LoanRecord)
    (h1 : ((runPipeline t).map dedupKey).Nodup)
    (h2 : ∀ r ∈ runPipeline t, r.loan_status.map cleanStatus = r.loan_status) :
    runPipeline (runPipeline t) = runPipeline t := by
  have hinv := pipeline_output_invariant t
  set T := runPipeline t with hT
  have hA : remove_duplicates T = T :=
    remove_duplicates_eq_self T (List.pairwise_map.mp h1)
  have hB : handle_missing_values T = T := by
    have hfc : T.filter criticalPresent = T :=
      List.filter_eq_self.mpr (fun r hr => (hinv r hr).1)
    have hnc : (T.any fun r => r.credit_score.isNone) = false := by
      rw [List.any_eq_false]
      intro x hx
      rcases Option.isSome_iff_exists.mp (hinv x hx).2.2.2.2.2.1 with ⟨v, hv⟩
      simp [hv]
    have hne : (T.any fun r => r.employment_length.isNone) = false := by
      rw [List.any_eq_false]
      intro x hx
      rcases Option.isSome_iff_exists.mp (hinv x hx).2.2.2.2.2.2.1 with ⟨v, hv⟩
      simp [hv]
    unfold handle_missing_values
    simp only [hfc, hnc, hne, Bool.false_eq_true, if_false]
  have hC : standardize_formats T = T := by
    unfold standardize_formats
    have : ∀ r ∈ T, standardizeRecord r = id r := by
      intro r hr
      have hi := hinv r hr
      unfold standardizeRecord
      rw [Option.map_map]
      rw [show (pyStrip ∘ mapStatus) = cleanStatus from rfl]
      rw [h2 r hr, hi.2.2.2.2.2.2.2.1, hi.2.2.2.2.2.2.2.2.1,
        hi.2.2.2.2.2.2.2.2.2.1, hi.2.2.2.2.2.2.2.2.2.2]
      rfl
    rw [List.map_congr_left this, List.map_id]
  have hD : validate_data_ranges T = T := by
    rw [validate_eq_filter]
    apply List.filter_eq_self.mpr
    intro r hr
    have hi := hinv r hr
    rw [hi.2.1, hi.2.2.1, hi.2.2.2.1, hi.2.2.2.2.1]
    rfl
  have hE : add_calculated_fields T = T := by
    unfold add_calculated_fields
    have : ∀ r ∈ T, enrichRecord r = id r := by
      intro r hr
      have hr' : r ∈ List.map enrichRecord
          (validate_data_ranges (standardize_formats
            (handle_missing_values (remove_duplicates t)))) := hr
      rcases List.mem_map.mp hr' with ⟨r1, _, rfl⟩
      exact enrichRecord_enrichRecord r1
    rw [List.map_congr_left this, List.map_id]
  show add_calculated_fields (validate_data_ranges (standardize_formats
    (handle_missing_values (remove_duplicates T)))) = T
  rw [hA, hB, hC, hD, hE]

/-- C2 witness: a one-record table with a parseable date and a mapped
status satisfies both side conditions, and the second pipeline run
reproduces the first run's output. -/
theorem pipeline_idempotent_after_first_run_witness :
    runPipeline (runPipeline [mkRawRecord "L-1" "2024-01-02"]) =
      runPipeline [mkRawRecord "L-1" "2024-01-02"] :=
  pipeline_idempotent_after_first_run [mkRawRecord "L-1" "2024-01-02"]
    (by decide) (by decide)
